import Mathlib

/-!
Verification of the crypto price-tracking service (`src/services/tracker.py`).

The analytics, batch-recording, search and CRUD logic of `CryptoTracker` is
embedded shallowly: prices are modelled as exact rationals (`ℚ`), the
document store as an explicit state record, and the fallible price client as
a function returning `Except`.  Python's `statistics.stdev` (sample standard
deviation) enters the code only through the comparisons
`coeff_var < 0.01` / `coeff_var < 0.05`; since `stdev/mean < c` with a
positive mean is equivalent to `variance < c² · mean²`, the volatility
bucketing is embedded by those exact rational comparisons on the variance,
and the equivalence with the square-root formulation is proved (see
`volatilityLabel_eq_cv_buckets` inside the C3 theorem).
-/

set_option maxHeartbeats 1000000

namespace CryptoProject

/-- Error kinds of the service (spec section 7); the Python code raises
`ValueError`/`RuntimeError` with messages, the spec types them. -/
inductive TrackerError where
  | notFound (coin_id : String)
  | alreadyExists (coin_id : String)
  | insufficientData (needed found : ℕ)
  | upstreamError (message : String)
deriving DecidableEq

/-- `MarketAnalytics` dataclass of `tracker.py`. -/
structure MarketAnalytics where
  coin_id : String
  record_count : ℕ
  open_price : ℚ
  close_price : ℚ
  high_price : ℚ
  low_price : ℚ
  average_price : ℚ
  net_change_percent : ℚ
deriving DecidableEq

/-- `TrendAnalysis` dataclass of `tracker.py`. -/
structure TrendAnalysis where
  coin_id : String
  record_count : ℕ
  trend : String
  volatility : String
  momentum_score : ℚ
  net_change_percent : ℚ
deriving DecidableEq

/-- Python's built-in `max` over a non-empty list (`max(prices)`);
`0` on the empty list (unreachable in the guarded call sites). -/
def listMax : List ℚ → ℚ
  | [] => 0
  | x :: xs => xs.foldl max x

/-- Python's built-in `min` over a non-empty list (`min(prices)`). -/
def listMin : List ℚ → ℚ
  | [] => 0
  | x :: xs => xs.foldl min x

/-- `statistics.mean(prices)`: sum divided by length. -/
def mean (l : List ℚ) : ℚ := l.sum / (l.length : ℚ)

/-- `statistics.stdev(prices) ** 2`: the sample variance, with Bessel's
`n - 1` denominator.  `statistics.stdev` is the square root of this. -/
def sampleVar (l : List ℚ) : ℚ :=
  ((l.map (fun x => (x - mean l) ^ 2)).sum) / ((l.length : ℚ) - 1)

/-- Population variance (`statistics.pstdev` squared): `n` denominator.
Used only to state the spec's claimed formulation of volatility. -/
def popVar (l : List ℚ) : ℚ :=
  ((l.map (fun x => (x - mean l) ^ 2)).sum) / (l.length : ℚ)

/-- Net change percent, shared by both analytics methods:
`((close - open) / open) * 100.0 if open_price != 0 else 0.0`, where the
window `prices` is newest-first, `open_price = prices[-1]`,
`close_price = prices[0]`. -/
def netChangePercent (prices : List ℚ) : ℚ :=
  let openP := prices.getLast?.getD 0
  let closeP := prices.head?.getD 0
  if openP ≠ 0 then (closeP - openP) / openP * 100 else 0

/-- The volatility bucket of `get_trend_analysis`:
`coeff_var = stdev/mean` (0 when `mean = 0`, and the code guards
`stdev = 0` when `n ≤ 1`), bucketed `< 0.01 → "Low"`, `< 0.05 → "Medium"`,
else `"High"`.  Encoded with exact rational comparisons: for `mean > 0`,
`stdev/mean < c ↔ var < c² mean²`; for `mean ≤ 0` the coefficient is `≤ 0`,
hence `"Low"`. -/
def volatilityLabel (prices : List ℚ) : String :=
  let m := mean prices
  let v := if 1 < prices.length then sampleVar prices else 0
  if m ≤ 0 then "Low"
  else if v * 10000 < m ^ 2 then "Low"
  else if v * 400 < m ^ 2 then "Medium"
  else "High"

/-- The spec's claimed volatility bucket: identical thresholds but with the
population variance in place of the sample variance. -/
def volatilityLabelClaim (prices : List ℚ) : String :=
  let m := mean prices
  let v := if 1 < prices.length then popVar prices else 0
  if m ≤ 0 then "Low"
  else if v * 10000 < m ^ 2 then "Low"
  else if v * 400 < m ^ 2 then "Medium"
  else "High"

/-- `sum(range(n))` as a rational. -/
def sumX (n : ℕ) : ℚ := ((List.range n).map (fun i => (i : ℚ))).sum

/-- `sum(i**2 for i in range(n))` as a rational. -/
def sumX2 (n : ℕ) : ℚ := ((List.range n).map (fun i => (i : ℚ) ^ 2)).sum

/-- `sum((k+i) * l[i] for i)`: index-weighted sum with starting index `k`;
`sumIdx 0 prices` is the code's `sum_xy = sum(i * prices[i] for i in range(n))`. -/
def sumIdx : ℕ → List ℚ → ℚ
  | _, [] => 0
  | k, x :: xs => (k : ℚ) * x + sumIdx (k + 1) xs

/-- `sum_xy` of `get_trend_analysis`. -/
def sumXY (prices : List ℚ) : ℚ := sumIdx 0 prices

/-- Numerator `n * sum_xy - sum_x * sum_y` of the regression slope. -/
def trendNum (prices : List ℚ) : ℚ :=
  (prices.length : ℚ) * sumXY prices - sumX prices.length * prices.sum

/-- Denominator `n * sum_x2 - sum_x**2` of the regression slope. -/
def trendDenom (prices : List ℚ) : ℚ :=
  (prices.length : ℚ) * sumX2 prices.length - (sumX prices.length) ^ 2

/-- The slope of `get_trend_analysis`: least-squares slope of price against
index over the window exactly as retrieved (newest-first, index 0 = newest);
the `ZeroDivisionError` fallback sets it to `0`. -/
def trendSlope (prices : List ℚ) : ℚ :=
  if trendDenom prices = 0 then 0 else trendNum prices / trendDenom prices

/-- `norm_slope = (slope / mean_price) * 100 if mean_price != 0 else 0`. -/
def normSlope (prices : List ℚ) : ℚ :=
  if mean prices = 0 then 0 else trendSlope prices / mean prices * 100

/-- The trend bucket of `get_trend_analysis` applied to the normalized slope. -/
def trendLabel (prices : List ℚ) : String :=
  let ns := normSlope prices
  if ns > 1 / 2 then "Strong Uptrend"
  else if ns > 1 / 10 then "Uptrend"
  else if ns < -(1 / 2) then "Strong Downtrend"
  else if ns < -(1 / 10) then "Downtrend"
  else "Sideways"

/-- The spec's claimed trend bucket: the regression is run on the window
reversed into oldest-first order (index 0 = oldest) before bucketing. -/
def trendLabelClaim (prices : List ℚ) : String :=
  trendLabel prices.reverse

/-- `momentum_score = min(max(|net_change|*0.5 + |norm_slope|*20, 0), 10)`. -/
def momentumScore (prices : List ℚ) : ℚ :=
  min (max (|netChangePercent prices| * (1 / 2) + |normSlope prices| * 20) 0) 10

/-- `CryptoTracker.get_market_analytics`, with the retrieval of the
newest-first price window (`get_price_history`) abstracted into the
argument `history`. -/
def get_market_analytics (coin_id : String) (history : List ℚ) :
    Except TrackerError MarketAnalytics :=
  if history.length < 2 then
    .error (.insufficientData 2 history.length)
  else
    .ok { coin_id := coin_id
          record_count := history.length
          open_price := history.getLast?.getD 0
          close_price := history.head?.getD 0
          high_price := listMax history
          low_price := listMin history
          average_price := mean history
          net_change_percent := netChangePercent history }

/-- `CryptoTracker.get_trend_analysis`, window abstracted as in
`get_market_analytics`. -/
def get_trend_analysis (coin_id : String) (history : List ℚ) :
    Except TrackerError TrendAnalysis :=
  if history.length < 4 then
    .error (.insufficientData 4 history.length)
  else
    .ok { coin_id := coin_id
          record_count := history.length
          trend := trendLabel history
          volatility := volatilityLabel history
          momentum_score := momentumScore history
          net_change_percent := netChangePercent history }

/-- `TrackedCoin` document/dataclass.  Its fields follow the spec's data
model (id, lowercase symbol, display name, active flag); the defining file
`src/models/coin.py` is external to the service under verification, but the
repository's tests construct it with exactly these fields. -/
structure TrackedCoin where
  coin_id : String
  symbol : String
  name : String
  is_active : Bool
deriving DecidableEq

/-- A stored price snapshot (`CoinPriceDocument`): asset id and price.  The
wall-clock timestamp is not modelled; windows are passed already ordered. -/
structure CoinPrice where
  coin_id : String
  price : ℚ
deriving DecidableEq

/-- The persisted state behind the MongoDB collections: tracked-coin
documents and price-snapshot documents. -/
structure DBState where
  tracked : List TrackedCoin
  prices : List CoinPrice
deriving DecidableEq

/-- Python's `str.lower()` (ASCII range), written character-by-character so
that it evaluates structurally. -/
def strLower (s : String) : String := ⟨s.data.map Char.toLower⟩

/-- `CryptoTracker.add_tracked_coin`: rejects a duplicate `coin_id` before
saving, otherwise stores the document with a lowercased symbol.  Returns
the final persisted state together with the result (`ValueError` typed as
`alreadyExists`). -/
def add_tracked_coin (st : DBState) (coin_id symbol name : String) :
    DBState × Except TrackerError TrackedCoin :=
  if st.tracked.any (fun t => t.coin_id == coin_id) then
    (st, .error (.alreadyExists coin_id))
  else
    let doc : TrackedCoin := ⟨coin_id, strLower symbol, name, true⟩
    ({ st with tracked := st.tracked ++ [doc] }, .ok doc)

/-- `CryptoTracker.delete_tracked_coin`: first deletes the matching tracked
documents, raises the not-found error when the deleted count is zero, and
only afterwards — when `delete_prices` — cascades to the price history.
Returns the final persisted state (a raise aborts after the writes already
performed) together with the outcome. -/
def delete_tracked_coin (st : DBState) (coin_id : String)
    (delete_prices : Bool) : DBState × Except TrackerError Unit :=
  let remaining := st.tracked.filter (fun t => t.coin_id != coin_id)
  let st1 : DBState := { st with tracked := remaining }
  if st.tracked.length - remaining.length = 0 then
    (st1, .error (.notFound coin_id))
  else if delete_prices then
    ({ st1 with prices := st1.prices.filter (fun p => p.coin_id != coin_id) },
      .ok ())
  else
    (st1, .ok ())

/-- `CryptoTracker.record_prices_for_all_tracked`: iterates over ALL tracked
coins, appending a snapshot per coin; `fetch` models the fallible
fetch-and-store of `record_price_for_coin`, and a failure for one coin is
caught and skipped without aborting the loop. -/
def record_prices_for_all_tracked (fetch : String → Except TrackerError ℚ)
    (tracked : List TrackedCoin) : List CoinPrice :=
  tracked.foldl
    (fun prices t =>
      match fetch t.coin_id with
      | .ok p => prices ++ [⟨t.coin_id, p⟩]
      | .error _ => prices)
    []

/-- One entry of the remote coin catalog
(`client.get_supported_coins_with_details()`): `{id, symbol, name}`. -/
structure CoinInfo where
  id : String
  symbol : String
  name : String
deriving DecidableEq

/-- The hardcoded `MAJOR_COINS` priority table of `tracker.py`, as an
association list in the source's insertion order. -/
def MAJOR_COINS : List (String × CoinInfo) := [
  ("bitcoin", ⟨"bitcoin", "btc", "Bitcoin"⟩),
  ("btc", ⟨"bitcoin", "btc", "Bitcoin"⟩),
  ("ethereum", ⟨"ethereum", "eth", "Ethereum"⟩),
  ("eth", ⟨"ethereum", "eth", "Ethereum"⟩),
  ("solana", ⟨"solana", "sol", "Solana"⟩),
  ("sol", ⟨"solana", "sol", "Solana"⟩),
  ("ripple", ⟨"ripple", "xrp", "Ripple"⟩),
  ("xrp", ⟨"ripple", "xrp", "Ripple"⟩),
  ("cardano", ⟨"cardano", "ada", "Cardano"⟩),
  ("ada", ⟨"cardano", "ada", "Cardano"⟩),
  ("dogecoin", ⟨"dogecoin", "doge", "Dogecoin"⟩),
  ("doge", ⟨"dogecoin", "doge", "Dogecoin"⟩),
  ("binancecoin", ⟨"binancecoin", "bnb", "Binance Coin"⟩),
  ("bnb", ⟨"binancecoin", "bnb", "Binance Coin"⟩)]

/-- Python's substring test `needle in hay`. -/
def strHasSub (hay needle : String) : Bool :=
  hay.toList.tails.any (fun t => needle.toList.isPrefixOf t)

/-- The catalog scan of `search_coins`, parameterized by the name denylist
`kws`: skips entries with an empty field, a symbol containing `"."` or
longer than 10 characters, or a name containing a denylist substring; keeps
entries whose lowercased symbol, id or name equals the query; stops as soon
as `limit` results are collected. -/
def searchLoop (kws : List String) (q : String) (limit : ℕ) :
    List CoinInfo → List CoinInfo → List CoinInfo
  | [], results => results
  | coin :: rest, results =>
    let symbol := strLower coin.symbol
    let coin_id := strLower coin.id
    let name := strLower coin.name
    if symbol = "" ∨ coin_id = "" ∨ name = "" then
      searchLoop kws q limit rest results
    else if strHasSub symbol "." ∨ symbol.length > 10 then
      searchLoop kws q limit rest results
    else if kws.any (fun kw => strHasSub name kw) then
      searchLoop kws q limit rest results
    else if q = symbol ∨ q = coin_id ∨ q = name then
      let results2 := results ++ [coin]
      if limit ≤ results2.length then results2
      else searchLoop kws q limit rest results2
    else
      searchLoop kws q limit rest results

/-- `CryptoTracker.search_coins`: lowercases the query, returns the single
`MAJOR_COINS` entry on an exact key hit, and otherwise scans the remote
catalog with the source's denylist `["-peg", "wrapped", "token", "staked"]`. -/
def search_coins (catalog : List CoinInfo) (query : String)
    (limit : ℕ := 10) : List CoinInfo :=
  let q := strLower query
  match MAJOR_COINS.find? (fun p => p.1 == q) with
  | some p => [p.2]
  | none => searchLoop ["-peg", "wrapped", "token", "staked"] q limit catalog []

/-- The spec's claimed variant of `search_coins`: identical except that the
name denylist is the claim's `peg/wrapped/token/staked` (bare `"peg"`
instead of the source's `"-peg"`). -/
def search_coins_claim (catalog : List CoinInfo) (query : String)
    (limit : ℕ := 10) : List CoinInfo :=
  let q := strLower query
  match MAJOR_COINS.find? (fun p => p.1 == q) with
  | some p => [p.2]
  | none => searchLoop ["peg", "wrapped", "token", "staked"] q limit catalog []

/-! ### List max/min helper lemmas -/

theorem le_foldl_max (xs : List ℚ) (x : ℚ) : x ≤ xs.foldl max x := by
  induction xs generalizing x with
  | nil => exact le_refl x
  | cons a as ih => exact le_trans (le_max_left x a) (ih (max x a))

theorem foldl_max_mem (xs : List ℚ) (x : ℚ) :
    xs.foldl max x = x ∨ xs.foldl max x ∈ xs := by
  induction xs generalizing x with
  | nil => exact Or.inl rfl
  | cons a as ih =>
    simp only [List.foldl_cons]
    rcases ih (max x a) with h | h
    · rcases max_choice x a with hx | ha
      · exact Or.inl (h.trans hx)
      · right; rw [h, ha]; exact List.mem_cons_self a as
    · exact Or.inr (List.mem_cons_of_mem a h)

theorem mem_le_foldl_max (xs : List ℚ) (x y : ℚ) (hy : y ∈ xs) :
    y ≤ xs.foldl max x := by
  induction xs generalizing x with
  | nil => cases hy
  | cons a as ih =>
    simp only [List.foldl_cons]
    rcases List.mem_cons.mp hy with rfl | h
    · exact le_trans (le_max_right x y) (le_foldl_max as (max x y))
    · exact ih (max x a) h

theorem listMax_mem (l : List ℚ) (hl : l ≠ []) : listMax l ∈ l := by
  match l with
  | x :: xs =>
    simp only [listMax]
    rcases foldl_max_mem xs x with h | h
    · rw [h]; exact List.mem_cons_self x xs
    · exact List.mem_cons_of_mem x h

theorem le_listMax (l : List ℚ) (y : ℚ) (hy : y ∈ l) : y ≤ listMax l := by
  match l with
  | x :: xs =>
    simp only [listMax]
    rcases List.mem_cons.mp hy with rfl | h
    · exact le_foldl_max xs y
    · exact mem_le_foldl_max xs x y h

theorem foldl_min_le (xs : List ℚ) (x : ℚ) : xs.foldl min x ≤ x := by
  induction xs generalizing x with
  | nil => exact le_refl x
  | cons a as ih => exact le_trans (ih (min x a)) (min_le_left x a)

theorem foldl_min_mem (xs : List ℚ) (x : ℚ) :
    xs.foldl min x = x ∨ xs.foldl min x ∈ xs := by
  induction xs generalizing x with
  | nil => exact Or.inl rfl
  | cons a as ih =>
    simp only [List.foldl_cons]
    rcases ih (min x a) with h | h
    · rcases min_choice x a with hx | ha
      · exact Or.inl (h.trans hx)
      · right; rw [h, ha]; exact List.mem_cons_self a as
    · exact Or.inr (List.mem_cons_of_mem a h)

theorem foldl_min_le_mem (xs : List ℚ) (x y : ℚ) (hy : y ∈ xs) :
    xs.foldl min x ≤ y := by
  induction xs generalizing x with
  | nil => cases hy
  | cons a as ih =>
    simp only [List.foldl_cons]
    rcases List.mem_cons.mp hy with rfl | h
    · exact le_trans (foldl_min_le as (min x y)) (min_le_right x y)
    · exact ih (min x a) h

theorem listMin_mem (l : List ℚ) (hl : l ≠ []) : listMin l ∈ l := by
  match l with
  | x :: xs =>
    simp only [listMin]
    rcases foldl_min_mem xs x with h | h
    · rw [h]; exact List.mem_cons_self x xs
    · exact List.mem_cons_of_mem x h

theorem listMin_le (l : List ℚ) (y : ℚ) (hy : y ∈ l) : listMin l ≤ y := by
  match l with
  | x :: xs =>
    simp only [listMin]
    rcases List.mem_cons.mp hy with rfl | h
    · exact foldl_min_le xs y
    · exact foldl_min_le_mem xs x y h

/-! ### Claim C1 -/

/-- C1: over a window of at least 2 snapshots ordered newest-first,
`get_market_analytics` reports `open` = price of the oldest sample (last
element), `close` = price of the newest (first element), `high` = maximum,
`low` = minimum, `average` = arithmetic mean, and
`net change % = (close - open)/open * 100` (0 when `open = 0`); for the
window `[100, 105, 95, 110]` it yields open 110, close 100 and net change
`-100/11`, which is `-9.09` to two decimals. -/
theorem C1_market_analytics_correct (cid : String) (history : List ℚ)
    (h : 2 ≤ history.length) :
    (∃ a, get_market_analytics cid history = Except.ok a ∧
      a.record_count = history.length ∧
      a.open_price = history.getLast?.getD 0 ∧
      a.close_price = history.head?.getD 0 ∧
      a.high_price ∈ history ∧ (∀ p ∈ history, p ≤ a.high_price) ∧
      a.low_price ∈ history ∧ (∀ p ∈ history, a.low_price ≤ p) ∧
      a.average_price * (history.length : ℚ) = history.sum ∧
      a.net_change_percent =
        (if history.getLast?.getD 0 ≠ 0 then
          (history.head?.getD 0 - history.getLast?.getD 0) /
            history.getLast?.getD 0 * 100
         else 0)) ∧
    (∃ b, get_market_analytics "btc" [100, 105, 95, 110] = Except.ok b ∧
      b.open_price = 110 ∧ b.close_price = 100 ∧
      b.net_change_percent = -100 / 11 ∧
      |b.net_change_percent - (-909 / 100)| < 1 / 200) := by
  have hne : history ≠ [] := by
    intro hnil; rw [hnil] at h; simp at h
  have hlen : ¬ history.length < 2 := by omega
  have heq : get_market_analytics cid history = Except.ok
      { coin_id := cid, record_count := history.length,
        open_price := history.getLast?.getD 0, close_price := history.head?.getD 0,
        high_price := listMax history, low_price := listMin history,
        average_price := mean history, net_change_percent := netChangePercent history } := by
    simp [get_market_analytics, hlen]
  refine ⟨⟨_, heq, rfl, rfl, rfl, ?_, ?_, ?_, ?_, ?_, ?_⟩, ?_⟩
  · exact listMax_mem history hne
  · exact fun p hp => le_listMax history p hp
  · exact listMin_mem history hne
  · exact fun p hp => listMin_le history p hp
  · have hlq : (history.length : ℚ) ≠ 0 := by
      have hl0 : history.length ≠ 0 := by omega
      exact_mod_cast hl0
    simp [mean, div_mul_cancel₀ _ hlq]
  · simp [netChangePercent]
  · have heq2 : get_market_analytics "btc" [100, 105, 95, 110] = Except.ok
        { coin_id := "btc", record_count := 4,
          open_price := 110, close_price := 100,
          high_price := listMax [100, 105, 95, 110],
          low_price := listMin [100, 105, 95, 110],
          average_price := mean [100, 105, 95, 110],
          net_change_percent := netChangePercent [100, 105, 95, 110] } := by
      simp [get_market_analytics]
    exact ⟨_, heq2, rfl, rfl, by norm_num [netChangePercent],
      by norm_num [netChangePercent, abs_lt]⟩

/-- Witness for C1 at the spec's concrete window. -/
theorem C1_market_analytics_correct_witness :
    2 ≤ ([100, 105, 95, 110] : List ℚ).length ∧
    ∃ b, get_market_analytics "btc" [100, 105, 95, 110] = Except.ok b ∧
      b.open_price = 110 ∧ b.close_price = 100 ∧
      b.net_change_percent = -100 / 11 ∧
      |b.net_change_percent - (-909 / 100)| < 1 / 200 :=
  ⟨by decide, (C1_market_analytics_correct "btc" [100, 105, 95, 110] (by decide)).2⟩

/-! ### Shared analytics helper lemmas -/

theorem get_trend_analysis_ok (cid : String) (history : List ℚ)
    (h : ¬ history.length < 4) :
    get_trend_analysis cid history = Except.ok
      { coin_id := cid, record_count := history.length,
        trend := trendLabel history, volatility := volatilityLabel history,
        momentum_score := momentumScore history,
        net_change_percent := netChangePercent history } := by
  simp [get_trend_analysis, h]

theorem sumX_eq (n : ℕ) : sumX n = (n : ℚ) * ((n : ℚ) - 1) / 2 := by
  induction n with
  | zero => simp [sumX]
  | succ m ih =>
    have : sumX (m + 1) = sumX m + (m : ℚ) := by
      simp [sumX, List.range_succ]
    rw [this, ih]
    push_cast
    ring

theorem sumX2_eq (n : ℕ) :
    sumX2 n = (n : ℚ) * ((n : ℚ) - 1) * (2 * (n : ℚ) - 1) / 6 := by
  induction n with
  | zero => simp [sumX2]
  | succ m ih =>
    have : sumX2 (m + 1) = sumX2 m + (m : ℚ) ^ 2 := by
      simp [sumX2, List.range_succ]
    rw [this, ih]
    push_cast
    ring

theorem trendDenom_closed (prices : List ℚ) :
    trendDenom prices =
      (prices.length : ℚ) ^ 2 * ((prices.length : ℚ) ^ 2 - 1) / 12 := by
  rw [trendDenom, sumX_eq, sumX2_eq]
  ring

theorem trendDenom_pos (prices : List ℚ) (h : 2 ≤ prices.length) :
    0 < trendDenom prices := by
  rw [trendDenom_closed]
  have hn : (2 : ℚ) ≤ (prices.length : ℚ) := by exact_mod_cast h
  nlinarith [sq_nonneg ((prices.length : ℚ) - 2)]

theorem sumIdx_succ (l : List ℚ) (k : ℕ) :
    sumIdx (k + 1) l = l.sum + sumIdx k l := by
  induction l generalizing k with
  | nil => simp [sumIdx]
  | cons x xs ih =>
    simp only [sumIdx, List.sum_cons]
    rw [ih (k + 1)]
    push_cast
    ring

theorem sumIdx_concat (l : List ℚ) (x : ℚ) (k : ℕ) :
    sumIdx k (l ++ [x]) = sumIdx k l + ((k : ℚ) + (l.length : ℚ)) * x := by
  induction l generalizing k with
  | nil => simp [sumIdx]
  | cons y ys ih =>
    simp only [List.cons_append, sumIdx, List.length_cons, List.append_eq]
    rw [ih (k + 1)]
    push_cast
    ring

theorem sumXY_reverse (l : List ℚ) :
    sumXY l.reverse + sumXY l = ((l.length : ℚ) - 1) * l.sum := by
  induction l with
  | nil => simp [sumXY, sumIdx]
  | cons x xs ih =>
    have h1 : sumXY (x :: xs).reverse = sumXY xs.reverse + (xs.length : ℚ) * x := by
      rw [List.reverse_cons, sumXY, sumIdx_concat, List.length_reverse]
      simp [sumXY]
    have h2 : sumXY (x :: xs) = xs.sum + sumXY xs := by
      simp only [sumXY, sumIdx]
      rw [sumIdx_succ]
      push_cast
      ring
    rw [h1, h2, List.length_cons, List.sum_cons]
    push_cast
    linarith [ih]

theorem trendNum_reverse (l : List ℚ) : trendNum l.reverse = - trendNum l := by
  have hXY := sumXY_reverse l
  simp only [trendNum, List.length_reverse, List.sum_reverse, sumX_eq]
  linear_combination
    (l.length : ℚ) * hXY

theorem trendDenom_reverse (l : List ℚ) : trendDenom l.reverse = trendDenom l := by
  simp [trendDenom, List.length_reverse]

theorem trendSlope_reverse (l : List ℚ) : trendSlope l.reverse = - trendSlope l := by
  simp only [trendSlope, trendDenom_reverse, trendNum_reverse]
  split
  · simp
  · rw [neg_div]

/-! ### Claim C5 -/

/-- C5: `get_market_analytics` fails with the insufficient-data error exactly
when its window has fewer than 2 samples and succeeds otherwise;
`get_trend_analysis` fails exactly below 4 samples (in particular on a
3-sample window) and succeeds otherwise. -/
theorem C5_insufficient_data (cid : String) (history : List ℚ) :
    (get_market_analytics cid history =
        Except.error (TrackerError.insufficientData 2 history.length) ↔
      history.length < 2) ∧
    ((∃ a, get_market_analytics cid history = Except.ok a) ↔
      2 ≤ history.length) ∧
    (get_trend_analysis cid history =
        Except.error (TrackerError.insufficientData 4 history.length) ↔
      history.length < 4) ∧
    ((∃ a, get_trend_analysis cid history = Except.ok a) ↔
      4 ≤ history.length) ∧
    get_trend_analysis cid [1, 2, 3] =
      Except.error (TrackerError.insufficientData 4 3) := by
  refine ⟨?_, ?_, ?_, ?_, ?_⟩
  · by_cases hl : history.length < 2 <;> simp [get_market_analytics, hl]
  · by_cases hl : history.length < 2 <;> simp [get_market_analytics, hl]
    all_goals omega
  · by_cases hl : history.length < 4 <;> simp [get_trend_analysis, hl]
  · by_cases hl : history.length < 4 <;> simp [get_trend_analysis, hl]
    all_goals omega
  · simp [get_trend_analysis]

/-! ### Claim C9 -/

/-- C9: for windows of at least 4 samples the regression denominator
`n * sum_x2 - sum_x ** 2` is strictly positive — it equals
`n² (n² - 1) / 12` — so the `ZeroDivisionError` fallback is unreachable and
the slope always equals the least-squares quotient. -/
theorem C9_denominator_positive (history : List ℚ) (h : 4 ≤ history.length) :
    0 < trendDenom history ∧
    trendSlope history = trendNum history / trendDenom history := by
  have hpos : 0 < trendDenom history := trendDenom_pos history (by omega)
  exact ⟨hpos, by rw [trendSlope, if_neg (ne_of_gt hpos)]⟩

/-- Witness for C9 on a concrete 4-sample window. -/
theorem C9_denominator_positive_witness :
    4 ≤ ([1, 2, 3, 4] : List ℚ).length ∧
    (0 < trendDenom [1, 2, 3, 4] ∧
      trendSlope [1, 2, 3, 4] = trendNum [1, 2, 3, 4] / trendDenom [1, 2, 3, 4]) :=
  ⟨by decide, C9_denominator_positive [1, 2, 3, 4] (by decide)⟩

/-! ### Claim C2 -/

theorem trendLabel_ite (history : List ℚ) :
    trendLabel history =
      (if normSlope history > 1 / 2 then "Strong Uptrend"
       else if normSlope history > 1 / 10 then "Uptrend"
       else if normSlope history < -(1 / 2) then "Strong Downtrend"
       else if normSlope history < -(1 / 10) then "Downtrend"
       else "Sideways") := rfl

/-- C2 counterexample: the code regresses on the window exactly as retrieved
(newest-first, index 0 = newest), not on the reversed oldest-first series
the claim describes.  On the window `[110, 100, 100, 100]` (newest-first)
the code reports "Strong Downtrend" while the claimed oldest-first
regression yields "Strong Uptrend". -/
theorem C2_trend_counterexample :
    (get_trend_analysis "c" [110, 100, 100, 100]).map TrendAnalysis.trend =
      Except.ok "Strong Downtrend" ∧
    trendLabelClaim [110, 100, 100, 100] = "Strong Uptrend" ∧
    trendLabel [110, 100, 100, 100] ≠ trendLabelClaim [110, 100, 100, 100] := by
  have h1 : trendLabel [110, 100, 100, 100] = "Strong Downtrend" := by
    norm_num [trendLabel_ite, normSlope, trendSlope, trendDenom, trendNum, sumXY,
      sumIdx, sumX, sumX2, mean, List.range_succ]
  have hrev : ([110, 100, 100, 100] : List ℚ).reverse = [100, 100, 100, 110] := rfl
  have h2 : trendLabelClaim [110, 100, 100, 100] = "Strong Uptrend" := by
    rw [trendLabelClaim, hrev]
    norm_num [trendLabel_ite, normSlope, trendSlope, trendDenom, trendNum, sumXY,
      sumIdx, sumX, sumX2, mean, List.range_succ]
  refine ⟨?_, h2, ?_⟩
  · rw [get_trend_analysis_ok "c" [110, 100, 100, 100] (by decide)]
    simp [Except.map, h1]
  · rw [h1, h2]
    decide

/-- C2 amended: over a window of at least 4 snapshots, `get_trend_analysis`
computes the least-squares slope of price against index over the window in
its retrieved newest-first order (no reversal; reversing the window negates
the slope), normalizes it by the mean price times 100, buckets it at the
claimed thresholds, and falls back to slope 0 exactly when the regression
denominator is zero. -/
theorem C2_trend_amended (cid : String) (history : List ℚ)
    (h : 4 ≤ history.length) :
    (∃ a, get_trend_analysis cid history = Except.ok a ∧
      a.trend = trendLabel history) ∧
    trendSlope history.reverse = - trendSlope history ∧
    (mean history ≠ 0 → normSlope history = trendSlope history / mean history * 100) ∧
    (mean history = 0 → normSlope history = 0) ∧
    (trendDenom history = 0 → trendSlope history = 0) ∧
    (1 / 2 < normSlope history → trendLabel history = "Strong Uptrend") ∧
    (1 / 10 < normSlope history → normSlope history ≤ 1 / 2 →
      trendLabel history = "Uptrend") ∧
    (normSlope history < -(1 / 2) → trendLabel history = "Strong Downtrend") ∧
    (-(1 / 2) ≤ normSlope history → normSlope history < -(1 / 10) →
      trendLabel history = "Downtrend") ∧
    (-(1 / 10) ≤ normSlope history → normSlope history ≤ 1 / 10 →
      trendLabel history = "Sideways") := by
  refine ⟨⟨_, get_trend_analysis_ok cid history (by omega), rfl⟩,
    trendSlope_reverse history, ?_, ?_, ?_, ?_, ?_, ?_, ?_, ?_⟩
  · intro hm; rw [normSlope, if_neg hm]
  · intro hm; rw [normSlope, if_pos hm]
  · intro hd; rw [trendSlope, if_pos hd]
  · intro h1; rw [trendLabel_ite, if_pos h1]
  · intro h1 h2; rw [trendLabel_ite]; split_ifs <;> first | rfl | linarith
  · intro h1; rw [trendLabel_ite]; split_ifs <;> first | rfl | linarith
  · intro h1 h2; rw [trendLabel_ite]; split_ifs <;> first | rfl | linarith
  · intro h1 h2; rw [trendLabel_ite]; split_ifs <;> first | rfl | linarith

/-- Witness for the amended C2 on a concrete 4-sample window. -/
theorem C2_trend_amended_witness :
    4 ≤ ([110, 100, 100, 100] : List ℚ).length ∧
    ((∃ a, get_trend_analysis "c" [110, 100, 100, 100] = Except.ok a ∧
      a.trend = trendLabel [110, 100, 100, 100]) ∧
    trendSlope ([110, 100, 100, 100] : List ℚ).reverse =
      - trendSlope [110, 100, 100, 100] ∧
    (mean [110, 100, 100, 100] ≠ 0 → normSlope [110, 100, 100, 100] =
      trendSlope [110, 100, 100, 100] / mean [110, 100, 100, 100] * 100) ∧
    (mean [110, 100, 100, 100] = 0 → normSlope [110, 100, 100, 100] = 0) ∧
    (trendDenom [110, 100, 100, 100] = 0 → trendSlope [110, 100, 100, 100] = 0) ∧
    (1 / 2 < normSlope [110, 100, 100, 100] →
      trendLabel [110, 100, 100, 100] = "Strong Uptrend") ∧
    (1 / 10 < normSlope [110, 100, 100, 100] →
      normSlope [110, 100, 100, 100] ≤ 1 / 2 →
      trendLabel [110, 100, 100, 100] = "Uptrend") ∧
    (normSlope [110, 100, 100, 100] < -(1 / 2) →
      trendLabel [110, 100, 100, 100] = "Strong Downtrend") ∧
    (-(1 / 2) ≤ normSlope [110, 100, 100, 100] →
      normSlope [110, 100, 100, 100] < -(1 / 10) →
      trendLabel [110, 100, 100, 100] = "Downtrend") ∧
    (-(1 / 10) ≤ normSlope [110, 100, 100, 100] →
      normSlope [110, 100, 100, 100] ≤ 1 / 10 →
      trendLabel [110, 100, 100, 100] = "Sideways")) :=
  ⟨by decide, C2_trend_amended "c" [110, 100, 100, 100] (by decide)⟩

/-! ### Claim C4 -/

/-- C4: the momentum score equals
`clamp(|net change %| * 0.5 + |normalized slope| * 20, 0, 10)` and always
lies in `[0, 10]`. -/
theorem C4_momentum_clamped (cid : String) (history : List ℚ)
    (h : 4 ≤ history.length) :
    ∃ a, get_trend_analysis cid history = Except.ok a ∧
      a.momentum_score =
        min (max (|netChangePercent history| * (1 / 2) +
          |normSlope history| * 20) 0) 10 ∧
      0 ≤ a.momentum_score ∧ a.momentum_score ≤ 10 := by
  refine ⟨_, get_trend_analysis_ok cid history (by omega), rfl, ?_, ?_⟩
  · exact le_min (le_max_right _ 0) (by norm_num)
  · exact min_le_right _ 10

/-- Witness for C4 on a concrete 4-sample window. -/
theorem C4_momentum_clamped_witness :
    4 ≤ ([1, 2, 3, 4] : List ℚ).length ∧
    ∃ a, get_trend_analysis "c" [1, 2, 3, 4] = Except.ok a ∧
      a.momentum_score =
        min (max (|netChangePercent [1, 2, 3, 4]| * (1 / 2) +
          |normSlope [1, 2, 3, 4]| * 20) 0) 10 ∧
      0 ≤ a.momentum_score ∧ a.momentum_score ≤ 10 :=
  ⟨by decide, C4_momentum_clamped "c" [1, 2, 3, 4] (by decide)⟩

/-! ### Claim C3 -/

theorem volatilityLabel_ite (prices : List ℚ) :
    volatilityLabel prices =
      (if mean prices ≤ 0 then "Low"
       else if (if 1 < prices.length then sampleVar prices else 0) * 10000 <
           mean prices ^ 2 then "Low"
       else if (if 1 < prices.length then sampleVar prices else 0) * 400 <
           mean prices ^ 2 then "Medium"
       else "High") := rfl

/-- The square-root-free encoding is exact: for a positive mean,
`sqrt v / m < c ↔ v < c² m²`. -/
theorem sqrt_cv_lt_iff (v m c : ℚ) (hm : 0 < m) (hc : 0 < c) :
    Real.sqrt (v : ℝ) / (m : ℝ) < (c : ℝ) ↔ v < c ^ 2 * m ^ 2 := by
  have hm' : (0 : ℝ) < (m : ℝ) := by exact_mod_cast hm
  have hc' : (0 : ℝ) < (c : ℝ) := by exact_mod_cast hc
  rw [div_lt_iff₀ hm', Real.sqrt_lt' (mul_pos hc' hm')]
  rw [show ((c : ℝ) * (m : ℝ)) ^ 2 = (((c ^ 2 * m ^ 2 : ℚ) : ℝ)) by push_cast; ring]
  exact Rat.cast_lt

/-- C3 counterexample: the code's volatility uses `statistics.stdev`, the
sample (Bessel, `n - 1`) standard deviation, not the population standard
deviation the claim states.  On the window
`[99.1, 100.9, 99.1, 100.9]` the sample CV is `≈ 0.0104` (bucket "Medium")
while the population CV is `0.009` (bucket "Low"). -/
theorem C3_volatility_counterexample :
    (get_trend_analysis "c" [991/10, 1009/10, 991/10, 1009/10]).map
        TrendAnalysis.volatility = Except.ok "Medium" ∧
    volatilityLabelClaim [991/10, 1009/10, 991/10, 1009/10] = "Low" ∧
    volatilityLabel [991/10, 1009/10, 991/10, 1009/10] ≠
      volatilityLabelClaim [991/10, 1009/10, 991/10, 1009/10] := by
  have h1 : volatilityLabel [991/10, 1009/10, 991/10, 1009/10] = "Medium" := by
    norm_num [volatilityLabel_ite, sampleVar, mean]
  have h2 : volatilityLabelClaim [991/10, 1009/10, 991/10, 1009/10] = "Low" := by
    norm_num [volatilityLabelClaim, popVar, mean]
  refine ⟨?_, h2, ?_⟩
  · rw [get_trend_analysis_ok "c" [991/10, 1009/10, 991/10, 1009/10] (by decide)]
    simp [Except.map, h1]
  · rw [h1, h2]
    decide

/-- C3 amended: `get_trend_analysis` buckets the coefficient of variation
computed from the SAMPLE standard deviation (`statistics.stdev`, Bessel's
`n - 1`), with thresholds `< 0.01 → Low`, `< 0.05 → Medium`, else `High`;
the bucket is monotonic in the CV, with sample CV `0.005 → Low`,
`0.03 → Medium`, `0.10 → High` on concrete windows. -/
theorem C3_volatility_amended (cid : String) (prices : List ℚ)
    (h : 4 ≤ prices.length) :
    (∃ a, get_trend_analysis cid prices = Except.ok a ∧
      a.volatility = volatilityLabel prices) ∧
    (0 < mean prices →
      ((volatilityLabel prices = "Low" ↔
        Real.sqrt ((sampleVar prices : ℝ)) / ((mean prices : ℝ)) < 1 / 100) ∧
       (volatilityLabel prices = "Medium" ↔
        1 / 100 ≤ Real.sqrt ((sampleVar prices : ℝ)) / ((mean prices : ℝ)) ∧
          Real.sqrt ((sampleVar prices : ℝ)) / ((mean prices : ℝ)) < 1 / 20) ∧
       (volatilityLabel prices = "High" ↔
        1 / 20 ≤ Real.sqrt ((sampleVar prices : ℝ)) / ((mean prices : ℝ))))) ∧
    volatilityLabel [401, 401, 401, 397] = "Low" ∧
    volatilityLabel [203/3, 203/3, 203/3, 191/3] = "Medium" ∧
    volatilityLabel [21, 21, 21, 17] = "High" := by
  refine ⟨⟨_, get_trend_analysis_ok cid prices (by omega), rfl⟩, ?_,
    by norm_num [volatilityLabel_ite, sampleVar, mean],
    by norm_num [volatilityLabel_ite, sampleVar, mean],
    by norm_num [volatilityLabel_ite, sampleVar, mean]⟩
  intro hm
  have hl1 : (if 1 < prices.length then sampleVar prices else 0) =
      sampleVar prices := if_pos (by omega)
  have hlabel : volatilityLabel prices =
      (if sampleVar prices * 10000 < mean prices ^ 2 then "Low"
       else if sampleVar prices * 400 < mean prices ^ 2 then "Medium"
       else "High") := by
    rw [volatilityLabel_ite, hl1, if_neg (not_le.mpr hm)]
  have c1 : ((1/100 : ℚ) : ℝ) = 1 / 100 := by norm_num
  have c2 : ((1/20 : ℚ) : ℝ) = 1 / 20 := by norm_num
  have bridgeLow : Real.sqrt ((sampleVar prices : ℝ)) / ((mean prices : ℝ)) <
      1 / 100 ↔ sampleVar prices * 10000 < mean prices ^ 2 := by
    rw [← c1, sqrt_cv_lt_iff (sampleVar prices) (mean prices) (1/100) hm (by norm_num)]
    constructor <;> intro hx <;> nlinarith
  have bridgeMed : Real.sqrt ((sampleVar prices : ℝ)) / ((mean prices : ℝ)) <
      1 / 20 ↔ sampleVar prices * 400 < mean prices ^ 2 := by
    rw [← c2, sqrt_cv_lt_iff (sampleVar prices) (mean prices) (1/20) hm (by norm_num)]
    constructor <;> intro hx <;> nlinarith
  rw [hlabel]
  refine ⟨?_, ?_, ?_⟩
  · split_ifs with hP hQ
    · exact iff_of_true rfl (bridgeLow.mpr hP)
    · exact iff_of_false (by decide) (fun hc => hP (bridgeLow.mp hc))
    · exact iff_of_false (by decide) (fun hc => hP (bridgeLow.mp hc))
  · split_ifs with hP hQ
    · exact iff_of_false (by decide)
        (fun hc => absurd (bridgeLow.mpr hP) (not_lt.mpr hc.1))
    · exact iff_of_true rfl
        ⟨not_lt.mp (fun hc => hP (bridgeLow.mp hc)), bridgeMed.mpr hQ⟩
    · exact iff_of_false (by decide) (fun hc => hQ (bridgeMed.mp hc.2))
  · split_ifs with hP hQ
    · exact iff_of_false (by decide)
        (fun hc => absurd (lt_of_lt_of_le (bridgeLow.mpr hP) (by norm_num))
          (not_lt.mpr hc))
    · exact iff_of_false (by decide)
        (fun hc => absurd (bridgeMed.mpr hQ) (not_lt.mpr hc))
    · exact iff_of_true rfl (not_lt.mp (fun hc => hQ (bridgeMed.mp hc)))

/-- Witness for the amended C3 on a concrete window with positive mean. -/
theorem C3_volatility_amended_witness :
    4 ≤ ([21, 21, 21, 17] : List ℚ).length ∧
    ((∃ a, get_trend_analysis "c" [21, 21, 21, 17] = Except.ok a ∧
      a.volatility = volatilityLabel [21, 21, 21, 17]) ∧
    (0 < mean [21, 21, 21, 17] →
      ((volatilityLabel [21, 21, 21, 17] = "Low" ↔
        Real.sqrt ((sampleVar [21, 21, 21, 17] : ℝ)) /
          ((mean [21, 21, 21, 17] : ℝ)) < 1 / 100) ∧
       (volatilityLabel [21, 21, 21, 17] = "Medium" ↔
        1 / 100 ≤ Real.sqrt ((sampleVar [21, 21, 21, 17] : ℝ)) /
            ((mean [21, 21, 21, 17] : ℝ)) ∧
          Real.sqrt ((sampleVar [21, 21, 21, 17] : ℝ)) /
            ((mean [21, 21, 21, 17] : ℝ)) < 1 / 20) ∧
       (volatilityLabel [21, 21, 21, 17] = "High" ↔
        1 / 20 ≤ Real.sqrt ((sampleVar [21, 21, 21, 17] : ℝ)) /
          ((mean [21, 21, 21, 17] : ℝ))))) ∧
    volatilityLabel [401, 401, 401, 397] = "Low" ∧
    volatilityLabel [203/3, 203/3, 203/3, 191/3] = "Medium" ∧
    volatilityLabel [21, 21, 21, 17] = "High") :=
  ⟨by decide, C3_volatility_amended "c" [21, 21, 21, 17] (by decide)⟩

/-! ### Claim C6 -/

theorem record_prices_foldl (fetch : String → Except TrackerError ℚ)
    (tracked : List TrackedCoin) :
    ∀ acc : List CoinPrice,
      tracked.foldl (fun prices t =>
        match fetch t.coin_id with
        | .ok p => prices ++ [⟨t.coin_id, p⟩]
        | .error _ => prices) acc =
      acc ++ tracked.filterMap (fun t =>
        match fetch t.coin_id with
        | .ok p => some ⟨t.coin_id, p⟩
        | .error _ => none) := by
  induction tracked with
  | nil => intro acc; simp
  | cons t rest ih =>
    intro acc
    simp only [List.foldl_cons, List.filterMap_cons]
    cases hf : fetch t.coin_id with
    | ok p => simp [hf, ih]
    | error e => simp [hf, ih]

/-- C6: `record_prices_for_all_tracked` visits every tracked asset — the
active flag plays no role — skips the ones whose fetch fails, and returns
exactly the successfully recorded snapshots in iteration order
(a `filterMap` of the tracked list); over two assets where the second fetch
raises it returns exactly one snapshot, a 1-of-2 success. -/
theorem C6_record_batch_failsafe (fetch : String → Except TrackerError ℚ)
    (tracked : List TrackedCoin) :
    record_prices_for_all_tracked fetch tracked =
      tracked.filterMap (fun t =>
        match fetch t.coin_id with
        | .ok p => some ⟨t.coin_id, p⟩
        | .error _ => none) ∧
    record_prices_for_all_tracked fetch
        (tracked.map (fun t => { t with is_active := false })) =
      record_prices_for_all_tracked fetch tracked ∧
    record_prices_for_all_tracked
        (fun cid => if cid = "ethereum" then
            Except.error (TrackerError.upstreamError "API failed for ethereum")
          else Except.ok 65000)
        [⟨"bitcoin", "btc", "Bitcoin", true⟩,
         ⟨"ethereum", "eth", "Ethereum", true⟩] =
      [⟨"bitcoin", 65000⟩] ∧
    (record_prices_for_all_tracked
        (fun cid => if cid = "ethereum" then
            Except.error (TrackerError.upstreamError "API failed for ethereum")
          else Except.ok 65000)
        [⟨"bitcoin", "btc", "Bitcoin", true⟩,
         ⟨"ethereum", "eth", "Ethereum", true⟩]).length = 1 ∧
    ([⟨"bitcoin", "btc", "Bitcoin", true⟩,
      (⟨"ethereum", "eth", "Ethereum", true⟩ : TrackedCoin)]).length = 2 := by
  refine ⟨?_, ?_, rfl, rfl, rfl⟩
  · simp only [record_prices_for_all_tracked]
    rw [record_prices_foldl]
    simp
  · simp only [record_prices_for_all_tracked]
    rw [record_prices_foldl, record_prices_foldl]
    simp only [List.nil_append, List.filterMap_map]
    rfl

/-! ### Claim C7 -/

theorem searchLoop_length_le (kws : List String) (q : String) (limit : ℕ) :
    ∀ (catalog acc : List CoinInfo), acc.length < limit →
      (searchLoop kws q limit catalog acc).length ≤ limit := by
  intro catalog
  induction catalog with
  | nil => intro acc h; simpa [searchLoop] using le_of_lt h
  | cons coin rest ih =>
    intro acc h
    simp only [searchLoop]
    split_ifs with h1 h2 h3 h4 h5
    · exact ih acc h
    · exact ih acc h
    · exact ih acc h
    · simpa using h
    · exact ih _ (not_le.mp h5)
    · exact ih acc h

theorem searchLoop_sound (kws : List String) (q : String) (limit : ℕ) :
    ∀ (catalog acc : List CoinInfo) (c : CoinInfo),
      c ∈ searchLoop kws q limit catalog acc →
      c ∈ acc ∨
      ((q = strLower c.symbol ∨ q = strLower c.id ∨ q = strLower c.name) ∧
        strHasSub (strLower c.symbol) "." = false ∧
        (strLower c.symbol).length ≤ 10 ∧
        kws.any (fun kw => strHasSub (strLower c.name) kw) = false) := by
  intro catalog
  induction catalog with
  | nil => intro acc c hc; left; simpa [searchLoop] using hc
  | cons coin rest ih =>
    intro acc c hc
    simp only [searchLoop] at hc
    split_ifs at hc with h1 h2 h3 h4 h5
    · exact ih acc c hc
    · exact ih acc c hc
    · exact ih acc c hc
    · rcases List.mem_append.mp hc with hl | hr
      · exact Or.inl hl
      · right
        have hc2 : c = coin := by simpa using hr
        subst hc2
        push_neg at h2
        refine ⟨h4, ?_, by omega, by simpa using h3⟩
        simpa using h2.1
    · rcases ih _ c hc with hl | hp
      · rcases List.mem_append.mp hl with hl2 | hr
        · exact Or.inl hl2
        · right
          have hc2 : c = coin := by simpa using hr
          subst hc2
          push_neg at h2
          refine ⟨h4, ?_, by omega, by simpa using h3⟩
          simpa using h2.1
      · exact Or.inr hp
    · exact ih acc c hc

/-- C7 counterexample: the source's name denylist contains `"-peg"` (with
the hyphen), not the claim's bare `"peg"`.  For the catalog entry
`{id:"pegasus", symbol:"pgs", name:"Pegasus"}` and query `"pegasus"`, the
code returns the entry while the claimed filter (name contains `"peg"`)
would reject it. -/
theorem C7_search_counterexample :
    search_coins [⟨"pegasus", "pgs", "Pegasus"⟩] "pegasus" 10 =
      [⟨"pegasus", "pgs", "Pegasus"⟩] ∧
    search_coins_claim [⟨"pegasus", "pgs", "Pegasus"⟩] "pegasus" 10 = [] ∧
    search_coins [⟨"pegasus", "pgs", "Pegasus"⟩] "pegasus" 10 ≠
      search_coins_claim [⟨"pegasus", "pgs", "Pegasus"⟩] "pegasus" 10 := by
  refine ⟨?_, ?_, ?_⟩ <;> decide

/-- C7 amended: `search_coins` lowercases the query; an exact `MAJOR_COINS`
key hit returns that single entry for EVERY catalog (the catalog is never
consulted); otherwise the catalog scan keeps only entries that pass the
quality filters — no `"."` in the symbol, symbol at most 10 characters, no
denylist substring of `"-peg"`/`"wrapped"`/`"token"`/`"staked"` in the
name — and whose id, symbol or name equals the query exactly, stopping at
`limit` matches; the spec's `spam` example returns empty. -/
theorem C7_search_amended (catalog : List CoinInfo) (query : String)
    (limit : ℕ) :
    (∀ p, MAJOR_COINS.find? (fun e => e.1 == strLower query) = some p →
      search_coins catalog query limit = [p.2]) ∧
    search_coins catalog "btc" limit = [⟨"bitcoin", "btc", "Bitcoin"⟩] ∧
    (1 ≤ limit → (search_coins catalog query limit).length ≤ limit) ∧
    (∀ c ∈ search_coins catalog query limit,
      (∃ p ∈ MAJOR_COINS, c = p.2) ∨
      ((strLower query = strLower c.symbol ∨ strLower query = strLower c.id ∨
          strLower query = strLower c.name) ∧
        strHasSub (strLower c.symbol) "." = false ∧
        (strLower c.symbol).length ≤ 10 ∧
        (["-peg", "wrapped", "token", "staked"].any
          (fun kw => strHasSub (strLower c.name) kw)) = false)) ∧
    search_coins [⟨"spam-coin-peg", "spam.x", "SpamCoin"⟩] "spam" 10 = [] ∧
    search_coins [⟨"pegasus", "pgs", "Pegasus"⟩] "pegasus" 10 =
      [⟨"pegasus", "pgs", "Pegasus"⟩] := by
  refine ⟨?_, rfl, ?_, ?_, by decide, by decide⟩
  · intro p hp
    simp only [search_coins, hp]
  · intro h1
    simp only [search_coins]
    cases hfind : MAJOR_COINS.find? (fun e => e.1 == strLower query) with
    | some p => simpa using h1
    | none => exact searchLoop_length_le _ _ _ catalog [] (by simpa using h1)
  · intro c hc
    simp only [search_coins] at hc
    cases hfind : MAJOR_COINS.find? (fun e => e.1 == strLower query) with
    | some p =>
      rw [hfind] at hc
      left
      exact ⟨p, List.mem_of_find?_eq_some hfind, by simpa using hc⟩
    | none =>
      rw [hfind] at hc
      rcases searchLoop_sound _ _ _ catalog [] c hc with hl | hp
      · cases hl
      · exact Or.inr hp

/-- Witness for the amended C7: the limit bound and the priority-hit
conjunct applied at concrete inputs. -/
theorem C7_search_amended_witness :
    1 ≤ 10 ∧
    (search_coins [⟨"pegasus", "pgs", "Pegasus"⟩] "pegasus" 10).length ≤ 10 ∧
    search_coins ([] : List CoinInfo) "btc" 10 =
      [⟨"bitcoin", "btc", "Bitcoin"⟩] :=
  ⟨by decide,
    (C7_search_amended [⟨"pegasus", "pgs", "Pegasus"⟩] "pegasus" 10).2.2.1
      (by decide),
    (C7_search_amended [] "btc" 10).2.1⟩

/-! ### Claims C8 and C10 -/

theorem add_duplicate_err (st : DBState) (cid sym nm : String)
    (h : ∃ t ∈ st.tracked, t.coin_id = cid) :
    add_tracked_coin st cid sym nm =
      (st, Except.error (TrackerError.alreadyExists cid)) := by
  have hany : st.tracked.any (fun t => t.coin_id == cid) = true :=
    List.any_eq_true.mpr (by
      obtain ⟨t, ht, he⟩ := h
      exact ⟨t, ht, beq_iff_eq.mpr he⟩)
  simp [add_tracked_coin, hany]

theorem delete_missing_err (st : DBState) (cid : String) (b : Bool)
    (h : ∀ t ∈ st.tracked, t.coin_id ≠ cid) :
    delete_tracked_coin st cid b =
      (st, Except.error (TrackerError.notFound cid)) := by
  have hrem : st.tracked.filter (fun t => t.coin_id != cid) = st.tracked :=
    List.filter_eq_self.mpr (fun t ht => bne_iff_ne.mpr (h t ht))
  simp [delete_tracked_coin, hrem]

/-- C8: adding an already-tracked id fails with the typed already-exists
error and stores nothing (the persisted state is returned unchanged);
deleting an unknown id fails with the typed not-found error. -/
theorem C8_crud_typed_errors (stA stD : DBState) (cidA sym nm cidD : String)
    (b : Bool)
    (hA : ∃ t ∈ stA.tracked, t.coin_id = cidA)
    (hD : ∀ t ∈ stD.tracked, t.coin_id ≠ cidD) :
    add_tracked_coin stA cidA sym nm =
      (stA, Except.error (TrackerError.alreadyExists cidA)) ∧
    delete_tracked_coin stD cidD b =
      (stD, Except.error (TrackerError.notFound cidD)) :=
  ⟨add_duplicate_err stA cidA sym nm hA, delete_missing_err stD cidD b hD⟩

/-- Witness for C8: duplicate add of "bitcoin" and deletion of a missing id
on a one-coin store. -/
theorem C8_crud_typed_errors_witness :
    (∃ t ∈ (DBState.mk [⟨"bitcoin", "btc", "Bitcoin", true⟩] []).tracked,
      t.coin_id = "bitcoin") ∧
    (∀ t ∈ (DBState.mk [⟨"bitcoin", "btc", "Bitcoin", true⟩] []).tracked,
      t.coin_id ≠ "missing") ∧
    (add_tracked_coin (DBState.mk [⟨"bitcoin", "btc", "Bitcoin", true⟩] [])
        "bitcoin" "btc" "Bitcoin" =
      (DBState.mk [⟨"bitcoin", "btc", "Bitcoin", true⟩] [],
        Except.error (TrackerError.alreadyExists "bitcoin")) ∧
    delete_tracked_coin (DBState.mk [⟨"bitcoin", "btc", "Bitcoin", true⟩] [])
        "missing" true =
      (DBState.mk [⟨"bitcoin", "btc", "Bitcoin", true⟩] [],
        Except.error (TrackerError.notFound "missing"))) :=
  ⟨by decide, by decide,
    C8_crud_typed_errors _ _ "bitcoin" "btc" "Bitcoin" "missing" true
      (by decide) (by decide)⟩

/-- C10: deleting an unknown id raises not-found before the price cascade
runs: even with `delete_prices = True` the persisted state — price
snapshots included — is unchanged. -/
theorem C10_delete_unknown_atomic (st : DBState) (cid : String)
    (h : ∀ t ∈ st.tracked, t.coin_id ≠ cid) :
    delete_tracked_coin st cid true =
      (st, Except.error (TrackerError.notFound cid)) ∧
    (delete_tracked_coin st cid true).1.prices = st.prices ∧
    (delete_tracked_coin st cid true).1.tracked = st.tracked := by
  have hd := delete_missing_err st cid true h
  exact ⟨hd, by rw [hd], by rw [hd]⟩

/-- Witness for C10 on a store that has price history for the tracked coin. -/
theorem C10_delete_unknown_atomic_witness :
    (∀ t ∈ (DBState.mk [⟨"bitcoin", "btc", "Bitcoin", true⟩]
        [⟨"bitcoin", 65000⟩]).tracked, t.coin_id ≠ "missing") ∧
    (delete_tracked_coin
        (DBState.mk [⟨"bitcoin", "btc", "Bitcoin", true⟩]
          [⟨"bitcoin", 65000⟩]) "missing" true =
      (DBState.mk [⟨"bitcoin", "btc", "Bitcoin", true⟩] [⟨"bitcoin", 65000⟩],
        Except.error (TrackerError.notFound "missing")) ∧
    (delete_tracked_coin
        (DBState.mk [⟨"bitcoin", "btc", "Bitcoin", true⟩]
          [⟨"bitcoin", 65000⟩]) "missing" true).1.prices =
      [⟨"bitcoin", 65000⟩] ∧
    (delete_tracked_coin
        (DBState.mk [⟨"bitcoin", "btc", "Bitcoin", true⟩]
          [⟨"bitcoin", 65000⟩]) "missing" true).1.tracked =
      [⟨"bitcoin", "btc", "Bitcoin", true⟩]) :=
  ⟨by decide,
    C10_delete_unknown_atomic
      (DBState.mk [⟨"bitcoin", "btc", "Bitcoin", true⟩]
        [⟨"bitcoin", 65000⟩]) "missing" (by decide)⟩

end CryptoProject
